import Mathlib

/-!
The `unique-id` command of weaveutil.

A shallow embedding of `prog/weaveutil/unique_id.go` and of the library call
it prints with, followed by the properties established about it.

Go strings are embedded as Lean strings, a sequence of Unicode characters;
the byte `%` (0x25) never occurs inside a multi-byte UTF-8 sequence, so the
scan `format[i] != '%'` of package fmt sees the same positions on characters
as on bytes.
-/

namespace Weave

/-! ## `fmt.Printf` without operands

`uniqueID` calls `fmt.Printf(uid)`: the identifier is the format and the
operand list is empty. The definitions below follow `doPrintf` and its
helpers in `fmt/print.go`, as in the Go releases of weave's years, with
`len(a) = 0`, where `argNum` stays 0, no operand is ever consumed
and the widths and precisions parsed are used by nothing. -/

/-- The function tooLarge of package fmt, on the non-negative numbers parsenum builds. -/
def tooLarge (x : Nat) : Bool := decide (x > 1000000)

/-- The function parsenum of package fmt over the slice still to be read: the number,
whether a digit was seen, and the unread rest (empty after an overflow, where
the Go code returns `newi = end`). -/
def parsenum : List Char → Nat → Bool → Nat × Bool × List Char
  | [], num, isnum => (num, isnum, [])
  | c :: cs, num, isnum =>
    if '0' ≤ c ∧ c ≤ '9' then
      if tooLarge num then (0, false, [])
      else parsenum cs (num * 10 + (c.toNat - '0'.toNat)) true
    else (num, isnum, c :: cs)

/-- The function parseArgNumber of package fmt, on a text that starts with `[`: how many
characters to consume and whether a number was parsed. The index is not kept:
with no operands `index < numArgs` fails for every index. -/
def parseArgNumber (format : List Char) : Nat × Bool :=
  if format.length < 3 then (1, false)
  else
    match (format.drop 1).indexOf? ']' with
    | none => (1, false)
    | some k =>
      let r := parsenum ((format.drop 1).take k) 0 false
      if !r.2.1 || !r.2.2.isEmpty then (k + 2, false) else (k + 2, true)

/-- What doPrintf tracks while it reads one verb: the unread format, the
`afterIndex` and `goodArgNum` flags, and the text written so far. -/
structure VerbState where
  rest : List Char
  afterIndex : Bool
  goodArgNum : Bool
  out : List Char

/-- The method argNumber of package fmt with `numArgs = 0`: a bracketed index is
consumed and always clears `goodArgNum`. -/
def argNumber (st : VerbState) : VerbState :=
  match st.rest with
  | '[' :: _ =>
    let r := parseArgNumber st.rest
    { st with rest := st.rest.drop r.1, afterIndex := r.2, goodArgNum := false }
  | _ => { st with afterIndex := false }

/-- The flag characters skipped by the `simpleFormat` loop. Its fast path for
a lower-case verb needs `argNum < len(a)` and is never taken here. -/
def isFlag (c : Char) : Bool :=
  c == '#' || c == '0' || c == '+' || c == '-' || c == ' '

/-- The width part of a verb: `*` finds no operand and writes `%!(BADWIDTH)`. -/
def width (st : VerbState) : VerbState :=
  match st.rest with
  | '*' :: t =>
    { st with rest := t, out := st.out ++ "%!(BADWIDTH)".data, afterIndex := false }
  | _ =>
    let r := parsenum st.rest 0 false
    { st with rest := r.2.2, goodArgNum := st.goodArgNum && !(st.afterIndex && r.2.1) }

/-- The precision part of a verb, entered on `.` when a character follows it
(`i+1 < end`): `*` finds no operand and writes `%!(BADPREC)`. -/
def precision (st : VerbState) : VerbState :=
  match st.rest with
  | '.' :: c :: t =>
    let st1 := argNumber
      { st with rest := c :: t, goodArgNum := st.goodArgNum && !st.afterIndex }
    match st1.rest with
    | '*' :: u =>
      { st1 with rest := u, out := st1.out ++ "%!(BADPREC)".data, afterIndex := false }
    | _ => { st1 with rest := (parsenum st1.rest 0 false).2.2 }
  | _ => st

/-- The end of a verb: the verb character itself. `%` is written as such; any
other verb finds no operand and is reported, as is a format that ends before
its verb. -/
def verbEnd (st : VerbState) : List Char × List Char :=
  match st.rest with
  | [] => (st.out ++ "%!(NOVERB)".data, [])
  | v :: t =>
    if v = '%' then (st.out ++ ['%'], t)
    else if !st.goodArgNum then (st.out ++ "%!".data ++ [v] ++ "(BADINDEX)".data, t)
    else (st.out ++ "%!".data ++ [v] ++ "(MISSING)".data, t)

/-- One verb of doPrintf, entered just after its `%`: the text written for it
and the unread rest of the format. -/
def verb (s : List Char) : List Char × List Char :=
  let st0 : VerbState :=
    { rest := s.dropWhile isFlag, afterIndex := false, goodArgNum := true, out := [] }
  let st1 := precision (width (argNumber st0))
  verbEnd (if st1.afterIndex then st1 else argNumber st1)

/-- The `formatLoop` of doPrintf: text up to the next `%` is copied, then one
verb is processed. Every turn consumes a character, so `fuel` above the
length of the format is never used up (`doPrintf_fuel`). -/
def doPrintf : Nat → List Char → List Char
  | 0, _ => []
  | _ + 1, [] => []
  | fuel + 1, c :: cs =>
    if c = '%' then (verb cs).1 ++ doPrintf fuel (verb cs).2
    else c :: doPrintf fuel cs

/-- The text `fmt.Printf(format)` writes when called without operands. -/
def Printf (format : String) : String :=
  ⟨doPrintf (format.data.length + 1) format.data⟩

/-! ## The identifier format -/

/-- A hexadecimal digit. -/
def isHexDigit (c : Char) : Bool :=
  ('0' ≤ c && c ≤ '9') || ('a' ≤ c && c ≤ 'f') || ('A' ≤ c && c ≤ 'F')

/-- A text made of `n` two-digit hexadecimal pairs separated by colons. -/
def hexPairs : Nat → List Char → Bool
  | 1, [a, b] => isHexDigit a && isHexDigit b
  | n + 2, a :: b :: ':' :: rest => isHexDigit a && isHexDigit b && hexPairs (n + 1) rest
  | _, _ => false

/-- Modelled from the spec: the Identifier format the missing `common` package
produces and validates, `xx:xx:xx:xx:xx:xx` hex pairs. -/
def canonical (uid : String) : Bool := hexPairs 6 uid.data

/-! ## `uniqueID`

The function has three effects: it calls `cmdUsage`, it calls
`common.GetSystemPeerName`, and it writes to standard output. Neither callee
is part of the file; both are parameters of the embedding. The world records
every call in order, the text written to standard output, and the state
`GetSystemPeerName` acts on. -/

/-- Whether a call comes back to its caller or ends the process. -/
inductive Control where
  | returns
  | exits
  deriving DecidableEq

/-- A call `uniqueID` makes to code outside the file. -/
inductive Call where
  | cmdUsage (cmd usage : String)
  | GetSystemPeerName (dbPrefix hostRoot : String)
  deriving DecidableEq

/-- How a run of `uniqueID` ends: a value handed to the caller (`none` is the
nil error), the process ended inside `cmdUsage`, or the run-time panic of an
index out of range. -/
inductive Outcome (ε : Type) where
  | returned (err : Option ε)
  | exited
  | panicked
  deriving DecidableEq

/-- The callees of `uniqueID`. `cmdUsage` has no result in Go, so all the
caller sees of it is whether it returns. `GetSystemPeerName` returns the Go
pair `(string, error)` and may change the state `σ` it works on. -/
structure Env (σ ε : Type) where
  cmdUsage : String → String → Control
  GetSystemPeerName : String → String → σ → (String × Option ε) × σ

/-- What a run can change. -/
structure World (σ : Type) where
  sys : σ
  stdout : String
  calls : List Call

/-- Lines 13 to 20 of `unique_id.go`: the two index reads with their bounds
checks, the call of `GetSystemPeerName`, the test of `err`, the print. -/
def uniqueIDBody {σ ε : Type} (env : Env σ ε) (args : List String) (w : World σ) :
    Outcome ε × World σ :=
  match args[0]? with
  | none => (.panicked, w)
  | some dbPrefix =>
    match args[1]? with
    | none => (.panicked, w)
    | some hostRoot =>
      let r := env.GetSystemPeerName dbPrefix hostRoot w.sys
      let w1 : World σ :=
        { w with sys := r.2, calls := w.calls ++ [Call.GetSystemPeerName dbPrefix hostRoot] }
      match r.1.2 with
      | some err => (.returned (some err), w1)
      | none => (.returned none, { w1 with stdout := w1.stdout ++ Printf r.1.1 })

/-- The function `uniqueID` of `unique_id.go`. The `if` of line 10 has no `return`:
when `cmdUsage` returns, execution goes on at line 13. -/
def uniqueID {σ ε : Type} (env : Env σ ε) (args : List String) (w : World σ) :
    Outcome ε × World σ :=
  if args.length ≠ 2 then
    let w1 : World σ :=
      { w with calls := w.calls ++ [Call.cmdUsage "unique-id" "<db-prefix> <host-root>"] }
    match env.cmdUsage "unique-id" "<db-prefix> <host-root>" with
    | .exits => (.exited, w1)
    | .returns => uniqueIDBody env args w1
  else uniqueIDBody env args w

/-! ## The identity store

`common.GetSystemPeerName` is not among the sources at hand. The definitions
of this section follow section 4.1 of the specification, operation
`GetOrCreate`, over a filesystem reduced to what that section names:
directories, files with their contents, paths on which reads or writes fail,
and the entropy source. -/

/-- Modelled from the spec: the error taxonomy of section 7, which the missing
`common` package would return. -/
inductive StoreError where
  | InvalidArgument
  | StorageUnavailable
  | StorageCorrupt
  | RandomnessUnavailable
  deriving DecidableEq

/-- Modelled from the spec: the accesses the missing identity store makes to
the filesystem: read, directory creation, exclusive create, removal. -/
inductive FsOp where
  | read (path : String)
  | mkdir (path : String)
  | createExcl (path : String)
  | remove (path : String)
  deriving DecidableEq

/-- Modelled from the spec: the filesystem and entropy source the missing
`GetSystemPeerName` works on. `unreadable` and `unwritable` are the paths on
which an access fails "due to permission or I/O failure"; `entropy` is `none`
when "the entropy source cannot produce bytes"; `log` lists every access
made. -/
structure FS where
  dirs : List String
  files : List (String × String)
  unreadable : List String
  unwritable : List String
  entropy : Option (Nat → Nat)
  drawn : Nat
  log : List FsOp

/-- Modelled from the spec: what section 4.1 leaves to the implementer of the
missing identity store: the path scheme of the Storage Location and of its
containing directory, the bound on retries, and the policy of the open
question of section 9 (whether invalid content found by the first read is
discarded, as section 8 has it, or left in place). -/
structure StoreConfig where
  location : String → String → String
  directory : String → String → String
  retries : Nat
  selfHeal : Bool

/-- The sixteen hexadecimal digits, lower case. -/
def hexDigit (d : Nat) : Char :=
  ['0', '1', '2', '3', '4', '5', '6', '7', '8', '9', 'a', 'b', 'c', 'd', 'e', 'f'].getD d '0'

/-- One byte as two hexadecimal digits. -/
def hexByte (b : Nat) : List Char := [hexDigit (b / 16 % 16), hexDigit (b % 16)]

/-- Modelled from the spec: the formatted representation of a candidate
Identifier, "a colon-separated hex byte sequence" of the 48 low bits drawn
from the entropy source (the generator of the missing `common` package). -/
def formatIdentifier (n : Nat) : String :=
  ⟨hexByte (n / 256 ^ 5 % 256) ++ ':' :: hexByte (n / 256 ^ 4 % 256) ++ ':' ::
    hexByte (n / 256 ^ 3 % 256) ++ ':' :: hexByte (n / 256 ^ 2 % 256) ++ ':' ::
    hexByte (n / 256 % 256) ++ ':' :: hexByte (n % 256)⟩

/-- Modelled from the spec: the tagged outcome of a read in the missing
identity store, `Found(Identifier) | Absent | Invalid` (section 9). -/
inductive ReadOutcome where
  | Found (id : String)
  | Absent
  | Invalid
  deriving DecidableEq

/-- Modelled from the spec: format validation on read in the missing identity
store; "a malformed value is treated as absent, not as a fatal error". -/
def classify : Option String → ReadOutcome
  | none => .Absent
  | some content => if canonical content then .Found content else .Invalid

/-- Modelled from the spec: reading the Storage Location in the missing
identity store; a permission or I/O failure is `StorageUnavailable`. -/
def readLocation (loc : String) (fs : FS) : Except StoreError ReadOutcome × FS :=
  let fs1 : FS := { fs with log := fs.log ++ [FsOp.read loc] }
  if loc ∈ fs.unreadable then (.error .StorageUnavailable, fs1)
  else (.ok (classify (fs.files.lookup loc)), fs1)

/-- Modelled from the spec: one pass through the create path of `GetOrCreate`
(steps 1 to 5 of section 4.1) of the missing identity store. The result
`none` is step 5 asking for a retry: the exclusive create lost to an existing
file whose content is invalid. -/
def createStep (cfg : StoreConfig) (dbPrefix hostRoot : String) (fs : FS) :
    Option (Except StoreError String) × FS :=
  match fs.entropy with
  | none => (some (.error .RandomnessUnavailable), fs)
  | some gen =>
    let candidate := formatIdentifier (gen fs.drawn)
    let dir := cfg.directory dbPrefix hostRoot
    let loc := cfg.location dbPrefix hostRoot
    let fs1 : FS := { fs with drawn := fs.drawn + 1, log := fs.log ++ [FsOp.mkdir dir] }
    if dir ∈ fs.unwritable then (some (.error .StorageUnavailable), fs1)
    else
      let fs2 : FS :=
        { fs1 with
          dirs := if dir ∈ fs1.dirs then fs1.dirs else dir :: fs1.dirs
          log := fs1.log ++ [FsOp.createExcl loc] }
      if loc ∈ fs.unwritable then (some (.error .StorageUnavailable), fs2)
      else
        match fs2.files.lookup loc with
        | none => (some (.ok candidate), { fs2 with files := (loc, candidate) :: fs2.files })
        | some _ =>
          match readLocation loc fs2 with
          | (.error e, fs3) => (some (.error e), fs3)
          | (.ok (.Found id), fs3) => (some (.ok id), fs3)
          | (.ok _, fs3) => (none, fs3)

/-- Modelled from the spec: the create path of the missing identity store with
its bounded retries; when they are used up the error is `StorageCorrupt`. -/
def createPath (cfg : StoreConfig) (dbPrefix hostRoot : String) :
    Nat → FS → Except StoreError String × FS
  | 0, fs =>
    match createStep cfg dbPrefix hostRoot fs with
    | (some res, fs1) => (res, fs1)
    | (none, fs1) => (.error .StorageCorrupt, fs1)
  | n + 1, fs =>
    match createStep cfg dbPrefix hostRoot fs with
    | (some res, fs1) => (res, fs1)
    | (none, fs1) => createPath cfg dbPrefix hostRoot n fs1

/-- Modelled from the spec: removal of invalid content found by the first
read, the way the missing identity store "treats as absent" under the
self-healing policy. -/
def discard (loc : String) (fs : FS) : Except StoreError Unit × FS :=
  let fs1 : FS := { fs with log := fs.log ++ [FsOp.remove loc] }
  if loc ∈ fs.unwritable then (.error .StorageUnavailable, fs1)
  else (.ok (), { fs1 with files := fs1.files.filter (fun e => e.1 != loc) })

/-- Modelled from the spec: operation `GetOrCreate(prefix, root)` of section
4.1, the behaviour of the missing `common.GetSystemPeerName`. -/
def GetOrCreate (cfg : StoreConfig) (dbPrefix hostRoot : String) (fs : FS) :
    Except StoreError String × FS :=
  if dbPrefix = "" ∨ hostRoot = "" then (.error .InvalidArgument, fs)
  else
    match readLocation (cfg.location dbPrefix hostRoot) fs with
    | (.error e, fs1) => (.error e, fs1)
    | (.ok (.Found id), fs1) => (.ok id, fs1)
    | (.ok .Absent, fs1) => createPath cfg dbPrefix hostRoot cfg.retries fs1
    | (.ok .Invalid, fs1) =>
      if cfg.selfHeal then
        match discard (cfg.location dbPrefix hostRoot) fs1 with
        | (.error e, fs2) => (.error e, fs2)
        | (.ok _, fs2) => createPath cfg dbPrefix hostRoot cfg.retries fs2
      else createPath cfg dbPrefix hostRoot cfg.retries fs1

/-- Modelled from the spec: the missing `common.GetSystemPeerName` as the Go
pair `(string, error)` over `GetOrCreate`; the string is empty beside an
error. -/
def GetSystemPeerName (cfg : StoreConfig) (dbPrefix hostRoot : String) (fs : FS) :
    (String × Option StoreError) × FS :=
  match GetOrCreate cfg dbPrefix hostRoot fs with
  | (.ok id, fs1) => ((id, none), fs1)
  | (.error e, fs1) => (("", some e), fs1)

/-- The callees of `uniqueID` with the identity store of the specification. -/
def storeEnv (cfg : StoreConfig) (usage : Control) : Env FS StoreError :=
  { cmdUsage := fun _ _ => usage, GetSystemPeerName := GetSystemPeerName cfg }

/-! ## Predicates on the state of the store -/

/-- The environment of the store: what no step of `GetOrCreate` changes. -/
def SameEnv (a b : FS) : Prop :=
  b.unreadable = a.unreadable ∧ b.unwritable = a.unwritable ∧ b.entropy = a.entropy

/-- The create path can write: the entropy source works and neither the
containing directory nor the location refuses writes. -/
def Creatable (cfg : StoreConfig) (dbPrefix hostRoot : String) (fs : FS) : Prop :=
  fs.entropy ≠ none ∧ cfg.directory dbPrefix hostRoot ∉ fs.unwritable ∧
    cfg.location dbPrefix hostRoot ∉ fs.unwritable

/-- The states from which `GetOrCreate` returns an Identifier. -/
def Succeeds (cfg : StoreConfig) (dbPrefix hostRoot : String) (fs : FS) : Prop :=
  dbPrefix ≠ "" ∧ hostRoot ≠ "" ∧ cfg.location dbPrefix hostRoot ∉ fs.unreadable ∧
    ((∃ id, classify (fs.files.lookup (cfg.location dbPrefix hostRoot)) = .Found id) ∨
      (Creatable cfg dbPrefix hostRoot fs ∧
        (classify (fs.files.lookup (cfg.location dbPrefix hostRoot)) = .Absent ∨
          cfg.selfHeal = true)))

/-! ## Concrete callees and states -/

/-- Callees that answer every call alike: `cmdUsage` behaves as `usage`, and
`GetSystemPeerName` returns the pair `(uid, err)` and leaves the state alone. -/
def fixedEnv (usage : Control) (uid : String) (err : Option String) : Env Unit String :=
  { cmdUsage := fun _ _ => usage, GetSystemPeerName := fun _ _ s => ((uid, err), s) }

/-- A world in which nothing has been called or written yet. -/
def freshWorld {σ : Type} (s : σ) : World σ := { sys := s, stdout := "", calls := [] }

/-- A path scheme for the store: `<root>var/lib/<prefix>/id`, three retries,
self-healing on. -/
def sampleConfig : StoreConfig :=
  { location := fun dbPrefix hostRoot => hostRoot ++ "var/lib/" ++ dbPrefix ++ "/id"
    directory := fun dbPrefix hostRoot => hostRoot ++ "var/lib/" ++ dbPrefix
    retries := 3
    selfHeal := true }

/-- An empty filesystem with a working entropy source. -/
def emptyFS : FS :=
  { dirs := [], files := [], unreadable := [], unwritable := []
    entropy := some (fun n => 0x02aabbccddee + n), drawn := 0, log := [] }

/-! ## Properties of `Printf` -/

theorem parsenum_length (s : List Char) :
    ∀ (num : Nat) (isnum : Bool), (parsenum s num isnum).2.2.length ≤ s.length := by
  induction s with
  | nil => intro num isnum; simp [parsenum]
  | cons c cs ih =>
    intro num isnum
    unfold parsenum
    split
    · split
      · simp
      · exact Nat.le_succ_of_le (ih _ _)
    · exact Nat.le_refl _

theorem argNumber_length (st : VerbState) :
    (argNumber st).rest.length ≤ st.rest.length := by
  unfold argNumber
  split
  · simp only [List.length_drop]; omega
  · exact Nat.le_refl _

theorem width_length (st : VerbState) : (width st).rest.length ≤ st.rest.length := by
  unfold width
  split
  · rename_i t h; simp [h]
  · exact parsenum_length _ _ _

theorem precision_length (st : VerbState) :
    (precision st).rest.length ≤ st.rest.length := by
  unfold precision
  split
  · rename_i c t h
    have h1 := argNumber_length
      { st with rest := c :: t, goodArgNum := st.goodArgNum && !st.afterIndex }
    simp only [h, List.length_cons] at h1 ⊢
    split
    · rename_i u hu
      simp only [hu, List.length_cons] at h1
      simp only; omega
    · have h2 := parsenum_length (argNumber
        { st with rest := c :: t, goodArgNum := st.goodArgNum && !st.afterIndex }).rest 0 false
      simp only; omega
  · exact Nat.le_refl _

theorem verbEnd_length (st : VerbState) : (verbEnd st).2.length ≤ st.rest.length := by
  unfold verbEnd
  split
  · simp
  · rename_i v t hv
    rw [hv]
    split
    · simp
    · split <;> simp

theorem verb_length (s : List Char) : (verb s).2.length ≤ s.length := by
  have h0 : (s.dropWhile isFlag).length ≤ s.length :=
    (List.dropWhile_sublist _).length_le
  obtain ⟨st0, hst0⟩ : ∃ st0 : VerbState, st0 =
      { rest := s.dropWhile isFlag, afterIndex := false, goodArgNum := true, out := [] } :=
    ⟨_, rfl⟩
  have h1 : (argNumber st0).rest.length ≤ (s.dropWhile isFlag).length := by
    have h := argNumber_length st0
    rw [hst0] at h ⊢
    exact h
  have h2 := width_length (argNumber st0)
  have h3 := precision_length (width (argNumber st0))
  have h4 := argNumber_length (precision (width (argNumber st0)))
  have h5 := verbEnd_length (precision (width (argNumber st0)))
  have h6 := verbEnd_length (argNumber (precision (width (argNumber st0))))
  unfold verb
  simp only
  rw [← hst0]
  split <;> omega

/-- Fuel above the length of the format is never used up: the result of
`doPrintf` does not depend on it. -/
theorem doPrintf_fuel (n : Nat) :
    ∀ (m : Nat) (s : List Char), s.length < n → s.length < m → doPrintf n s = doPrintf m s := by
  induction n with
  | zero => intro m s h; omega
  | succ n ih =>
    intro m s hn hm
    cases m with
    | zero => omega
    | succ m =>
      cases s with
      | nil => simp [doPrintf]
      | cons c cs =>
        have hv := verb_length cs
        simp only [List.length_cons] at hn hm
        simp only [doPrintf]
        split
        · rw [ih m (verb cs).2 (by omega) (by omega)]
        · rw [ih m cs (by omega) (by omega)]

theorem doPrintf_no_percent (n : Nat) :
    ∀ s : List Char, '%' ∉ s → s.length < n → doPrintf n s = s := by
  induction n with
  | zero => intro s _ h; omega
  | succ n ih =>
    intro s hs hn
    cases s with
    | nil => simp [doPrintf]
    | cons c cs =>
      simp only [List.mem_cons, not_or] at hs
      simp only [List.length_cons] at hn
      have hc : ¬ c = '%' := fun h => hs.1 h.symm
      simp only [doPrintf, hc, if_false]
      rw [ih cs hs.2 (by omega)]

theorem isHexDigit_ne_percent (c : Char) (h : isHexDigit c = true) : c ≠ '%' := by
  intro hc
  subst hc
  exact absurd h (by decide)

theorem hexPairs_no_percent (n : Nat) :
    ∀ s : List Char, hexPairs n s = true → '%' ∉ s := by
  induction n with
  | zero => intro s h; simp [hexPairs] at h
  | succ n ih =>
    intro s h
    unfold hexPairs at h
    split at h
    · simp only [Bool.and_eq_true] at h
      simp only [List.mem_cons, List.mem_singleton, List.not_mem_nil, or_false, not_or]
      exact ⟨fun e => isHexDigit_ne_percent _ h.1 e.symm,
        fun e => isHexDigit_ne_percent _ h.2 e.symm⟩
    · rename_i heq
      simp only [Bool.and_eq_true] at h
      have hr := ih _ ((Nat.succ.inj heq) ▸ h.2)
      simp only [List.mem_cons, not_or]
      exact ⟨fun e => isHexDigit_ne_percent _ h.1.1 e.symm,
        fun e => isHexDigit_ne_percent _ h.1.2 e.symm, by decide, hr⟩
    · exact absurd h (by decide)

theorem Printf_of_no_percent (uid : String) (h : '%' ∉ uid.data) : Printf uid = uid := by
  cases uid with
  | mk data =>
    simp only [Printf]
    rw [doPrintf_no_percent (data.length + 1) data h (Nat.lt_succ_self _)]

theorem Printf_of_canonical (uid : String) (h : canonical uid = true) : Printf uid = uid :=
  Printf_of_no_percent uid (hexPairs_no_percent 6 uid.data h)

theorem Printf_percent : Printf "%" = "%!(NOVERB)" := by decide

/-- C9. An identifier in the canonical format, and more generally any
identifier without a `%`, is written by `fmt.Printf(uid)` exactly as it is:
the printed text equals the identifier. -/
theorem Printf_verbatim (uid : String)
    (h : canonical uid = true ∨ '%' ∉ uid.data) : Printf uid = uid := by
  rcases h with h | h
  · exact Printf_of_canonical uid h
  · exact Printf_of_no_percent uid h

theorem Printf_verbatim_witness :
    (canonical "02:aa:bb:cc:dd:ee" = true ∨ '%' ∉ "02:aa:bb:cc:dd:ee".data) ∧
      Printf "02:aa:bb:cc:dd:ee" = "02:aa:bb:cc:dd:ee" :=
  ⟨Or.inl (by decide), Printf_verbatim "02:aa:bb:cc:dd:ee" (Or.inl (by decide))⟩

/-! ## Properties of the identity store -/

theorem isHexDigit_hexDigit (d : Nat) : isHexDigit (hexDigit (d % 16)) = true := by
  have h : ∀ k : Fin 16, isHexDigit (hexDigit k.val) = true := by decide
  exact h ⟨d % 16, Nat.mod_lt _ (by decide)⟩

theorem canonical_formatIdentifier (n : Nat) : canonical (formatIdentifier n) = true := by
  simp [canonical, formatIdentifier, hexByte, hexPairs, isHexDigit_hexDigit]

theorem lookup_filter_ne (loc : String) (files : List (String × String)) :
    (files.filter (fun e => e.1 != loc)).lookup loc = none := by
  induction files with
  | nil => rfl
  | cons e es ih =>
    cases e with
    | mk a b =>
      by_cases h : a = loc
      · simp [List.filter, h, ih]
      · have h1 : (a != loc) = true := by simpa using h
        have h2 : (loc == a) = false := by simpa using fun h3 => h h3.symm
        simp only [List.filter, h1, List.lookup, h2]
        exact ih

theorem classify_found (c : Option String) (id : String) (h : classify c = .Found id) :
    c = some id ∧ canonical id = true := by
  cases c with
  | none => simp [classify] at h
  | some x =>
    simp only [classify] at h
    split at h
    · rename_i hx
      injection h with h
      subst h
      exact ⟨rfl, hx⟩
    · exact absurd h (by simp)

theorem createStep_post (cfg : StoreConfig) (p r : String) (fs : FS) :
    SameEnv fs (createStep cfg p r fs).2 ∧
    match (createStep cfg p r fs).1 with
    | some (.ok id) =>
      (createStep cfg p r fs).2.files.lookup (cfg.location p r) = some id ∧ canonical id = true
    | some (.error _) =>
      (createStep cfg p r fs).2.files = fs.files ∧
        (¬ Creatable cfg p r fs ∨ cfg.location p r ∈ fs.unreadable)
    | none =>
      (createStep cfg p r fs).2.files = fs.files ∧
        classify (fs.files.lookup (cfg.location p r)) = .Invalid := by
  unfold createStep
  cases he : fs.entropy with
  | none => simp [SameEnv, Creatable, he]
  | some gen =>
    simp only
    by_cases hd : cfg.directory p r ∈ fs.unwritable
    · simp [SameEnv, Creatable, he, hd]
    · by_cases hl : cfg.location p r ∈ fs.unwritable
      · simp [SameEnv, Creatable, he, hd, hl]
      · simp only [hd, hl, if_false]
        cases hf : fs.files.lookup (cfg.location p r) with
        | none =>
          simp [SameEnv, he, List.lookup, canonical_formatIdentifier]
        | some c =>
          simp only [readLocation]
          by_cases hu : cfg.location p r ∈ fs.unreadable
          · simp [SameEnv, he, hu]
          · simp only [hu, if_false, hf]
            cases hc : classify (some c) with
            | Found id =>
              have := classify_found _ _ hc
              simp [SameEnv, he, this.2, hf]
              exact Option.some.inj this.1.symm ▸ rfl
            | Absent => simp [classify] at hc; split at hc <;> simp at hc
            | Invalid => simp [SameEnv, he]
theorem SameEnv_trans {a b c : FS} (h1 : SameEnv a b) (h2 : SameEnv b c) : SameEnv a c :=
  ⟨h2.1.trans h1.1, h2.2.1.trans h1.2.1, h2.2.2.trans h1.2.2⟩

theorem Creatable_congr (cfg : StoreConfig) (p r : String) {a b : FS} (h : SameEnv a b) :
    Creatable cfg p r b ↔ Creatable cfg p r a := by
  simp only [Creatable, h.2.1, h.2.2]

theorem createPath_post (cfg : StoreConfig) (p r : String) (n : Nat) :
    ∀ fs : FS, SameEnv fs (createPath cfg p r n fs).2 ∧
      match (createPath cfg p r n fs).1 with
      | .ok id =>
        (createPath cfg p r n fs).2.files.lookup (cfg.location p r) = some id ∧
          canonical id = true
      | .error _ =>
        (createPath cfg p r n fs).2.files = fs.files ∧
          (¬ Creatable cfg p r fs ∨ cfg.location p r ∈ fs.unreadable ∨
            classify (fs.files.lookup (cfg.location p r)) = .Invalid) := by
  induction n with
  | zero =>
    intro fs
    have h := createStep_post cfg p r fs
    unfold createPath
    rcases hs : createStep cfg p r fs with ⟨res, fs1⟩
    rw [hs] at h
    cases res with
    | none => exact ⟨h.1, h.2.1, Or.inr (Or.inr h.2.2)⟩
    | some res =>
      cases res with
      | ok id => exact h
      | error e => exact ⟨h.1, h.2.1, h.2.2.elim Or.inl (fun x => Or.inr (Or.inl x))⟩
  | succ n ih =>
    intro fs
    have h := createStep_post cfg p r fs
    unfold createPath
    rcases hs : createStep cfg p r fs with ⟨res, fs1⟩
    rw [hs] at h
    cases res with
    | none =>
      have h2 := ih fs1
      simp only at h h2 ⊢
      refine ⟨SameEnv_trans h.1 h2.1, ?_⟩
      cases hc : (createPath cfg p r n fs1).1 with
      | ok id => rw [hc] at h2; exact h2.2
      | error e =>
        rw [hc] at h2
        exact ⟨h2.2.1.trans h.2.1, Or.inr (Or.inr h.2.2)⟩
    | some res =>
      cases res with
      | ok id => exact h
      | error e => exact ⟨h.1, h.2.1, h.2.2.elim Or.inl (fun x => Or.inr (Or.inl x))⟩

theorem createStep_fails (cfg : StoreConfig) (p r : String) (fs : FS)
    (h : ¬ Creatable cfg p r fs) : ∃ e, (createStep cfg p r fs).1 = some (.error e) := by
  unfold createStep
  cases he : fs.entropy with
  | none => exact ⟨_, rfl⟩
  | some gen =>
    simp only
    by_cases hd : cfg.directory p r ∈ fs.unwritable
    · simp [hd]
    · by_cases hl : cfg.location p r ∈ fs.unwritable
      · simp [hd, hl]
      · exact absurd ⟨by simp [he], hd, hl⟩ h

theorem createStep_invalid (cfg : StoreConfig) (p r : String) (fs : FS)
    (h : classify (fs.files.lookup (cfg.location p r)) = .Invalid) :
    (createStep cfg p r fs).1 = none ∨ ∃ e, (createStep cfg p r fs).1 = some (.error e) := by
  have hp := createStep_post cfg p r fs
  cases hs : (createStep cfg p r fs).1 with
  | none => exact Or.inl rfl
  | some res =>
    cases res with
    | error e => exact Or.inr ⟨e, rfl⟩
    | ok id =>
      exfalso
      revert hp hs
      unfold createStep
      cases he : fs.entropy with
      | none => simp
      | some gen =>
        simp only
        by_cases hd : cfg.directory p r ∈ fs.unwritable
        · simp [hd]
        · by_cases hl : cfg.location p r ∈ fs.unwritable
          · simp [hd, hl]
          · simp only [hd, hl, if_false]
            cases hf : fs.files.lookup (cfg.location p r) with
            | none => rw [hf] at h; simp [classify] at h
            | some c =>
              rw [hf] at h
              simp only [readLocation]
              by_cases hu : cfg.location p r ∈ fs.unreadable
              · simp [hu]
              · simp [hu, hf, h]

theorem createPath_fails (cfg : StoreConfig) (p r : String) (n : Nat) :
    ∀ fs : FS, (¬ Creatable cfg p r fs ∨
      classify (fs.files.lookup (cfg.location p r)) = .Invalid) →
      ∃ e, (createPath cfg p r n fs).1 = .error e := by
  induction n with
  | zero =>
    intro fs h
    unfold createPath
    rcases h with h | h
    · obtain ⟨e, he⟩ := createStep_fails cfg p r fs h
      rcases hs : createStep cfg p r fs with ⟨res, fs1⟩
      rw [hs] at he
      simp only at he
      subst he
      exact ⟨e, rfl⟩
    · rcases hs : createStep cfg p r fs with ⟨res, fs1⟩
      rcases createStep_invalid cfg p r fs h with h1 | ⟨e, h1⟩
      · rw [hs] at h1; simp only at h1; subst h1; exact ⟨_, rfl⟩
      · rw [hs] at h1; simp only at h1; subst h1; exact ⟨_, rfl⟩
  | succ n ih =>
    intro fs h
    unfold createPath
    have hp := createStep_post cfg p r fs
    rcases hs : createStep cfg p r fs with ⟨res, fs1⟩
    rw [hs] at hp
    rcases h with h | h
    · obtain ⟨e, he⟩ := createStep_fails cfg p r fs h
      rw [hs] at he
      simp only at he
      subst he
      exact ⟨e, rfl⟩
    · rcases createStep_invalid cfg p r fs h with h1 | ⟨e, h1⟩
      · rw [hs] at h1
        simp only at h1
        subst h1
        simp only at hp ⊢
        exact ih fs1 (Or.inr (by rw [hp.2.1]; exact h))
      · rw [hs] at h1; simp only at h1; subst h1; exact ⟨_, rfl⟩
theorem GetOrCreate_found (cfg : StoreConfig) (p r : String) (fs : FS) (id : String)
    (hp : p ≠ "") (hr : r ≠ "") (hu : cfg.location p r ∉ fs.unreadable)
    (hf : fs.files.lookup (cfg.location p r) = some id) (hc : canonical id = true) :
    GetOrCreate cfg p r fs =
      (.ok id, { fs with log := fs.log ++ [FsOp.read (cfg.location p r)] }) := by
  simp [GetOrCreate, readLocation, hp, hr, hu, hf, classify, hc]

theorem GetOrCreate_post (cfg : StoreConfig) (p r : String) (fs : FS) :
    SameEnv fs (GetOrCreate cfg p r fs).2 ∧
      match (GetOrCreate cfg p r fs).1 with
      | .ok id =>
        p ≠ "" ∧ r ≠ "" ∧ cfg.location p r ∉ fs.unreadable ∧
          (GetOrCreate cfg p r fs).2.files.lookup (cfg.location p r) = some id ∧
          canonical id = true
      | .error _ => ¬ Succeeds cfg p r (GetOrCreate cfg p r fs).2 := by
  unfold GetOrCreate
  by_cases hpr : p = "" ∨ r = ""
  · simp only [hpr, if_true]
    refine ⟨⟨rfl, rfl, rfl⟩, ?_⟩
    intro hs
    rcases hpr with h | h
    · exact hs.1 h
    · exact hs.2.1 h
  · simp only [hpr, if_false, readLocation]
    have hp : p ≠ "" := fun h => hpr (Or.inl h)
    have hr : r ≠ "" := fun h => hpr (Or.inr h)
    by_cases hu : cfg.location p r ∈ fs.unreadable
    · simp only [hu, if_true]
      exact ⟨⟨rfl, rfl, rfl⟩, fun hs => hs.2.2.1 hu⟩
    · simp only [hu, if_false]
      obtain ⟨fs1, hfs1⟩ : ∃ fs1 : FS,
          fs1 = { fs with log := fs.log ++ [FsOp.read (cfg.location p r)] } := ⟨_, rfl⟩
      have e1 : SameEnv fs fs1 := by rw [hfs1]; exact ⟨rfl, rfl, rfl⟩
      have f1 : fs1.files = fs.files := by rw [hfs1]
      rw [← hfs1]
      cases hc : classify (fs.files.lookup (cfg.location p r)) with
      | Found id =>
        have := classify_found _ _ hc
        exact ⟨e1, hp, hr, not_false, by rw [f1]; exact this.1, this.2⟩
      | Absent =>
        simp only
        have h := createPath_post cfg p r cfg.retries fs1
        refine ⟨SameEnv_trans e1 h.1, ?_⟩
        cases hres : (createPath cfg p r cfg.retries fs1).1 with
        | ok id => rw [hres] at h; exact ⟨hp, hr, not_false, h.2⟩
        | error e =>
          rw [hres] at h
          simp only at h ⊢
          intro hs
          have hfiles : (createPath cfg p r cfg.retries fs1).2.files = fs.files :=
            h.2.1.trans f1
          rcases hs with ⟨_, _, _, hs⟩
          rw [hfiles, hc] at hs
          rcases hs with ⟨id, hs⟩ | ⟨hcr, _⟩
          · exact absurd hs (by simp)
          · have hcr1 : Creatable cfg p r fs1 :=
              (Creatable_congr cfg p r h.1).1 hcr
            rcases h.2.2 with h3 | h3 | h3
            · exact h3 hcr1
            · rw [e1.1] at h3; exact hu h3
            · rw [f1, hc] at h3; exact absurd h3 (by simp)
      | Invalid =>
        simp only
        by_cases hh : cfg.selfHeal = true
        · simp only [hh, if_true, discard]
          by_cases hw : cfg.location p r ∈ fs1.unwritable
          · simp only [hw, if_true]
            refine ⟨⟨e1.1, e1.2.1, e1.2.2⟩, ?_⟩
            intro hs
            rcases hs with ⟨_, _, _, hs⟩
            simp only [f1, hc] at hs
            rcases hs with ⟨id, hs⟩ | ⟨hcr, _⟩
            · exact absurd hs (by simp)
            · exact hcr.2.2 hw
          · simp only [hw, if_false]
            obtain ⟨fs2, hfs2⟩ : ∃ fs2 : FS, fs2 =
                { fs1 with
                  log := fs1.log ++ [FsOp.remove (cfg.location p r)]
                  files := fs1.files.filter (fun e => e.1 != cfg.location p r) } :=
              ⟨_, rfl⟩
            have e2 : SameEnv fs1 fs2 := by rw [hfs2]; exact ⟨rfl, rfl, rfl⟩
            have f2 : fs2.files.lookup (cfg.location p r) = none := by
              rw [hfs2]; exact lookup_filter_ne _ _
            rw [← hfs2]
            have h := createPath_post cfg p r cfg.retries fs2
            refine ⟨SameEnv_trans (SameEnv_trans e1 e2) h.1, ?_⟩
            cases hres : (createPath cfg p r cfg.retries fs2).1 with
            | ok id => rw [hres] at h; exact ⟨hp, hr, not_false, h.2⟩
            | error e =>
              rw [hres] at h
              simp only at h ⊢
              intro hs
              rcases hs with ⟨_, _, _, hs⟩
              rw [h.2.1, f2] at hs
              rcases hs with ⟨id, hs⟩ | ⟨hcr, _⟩
              · exact absurd hs (by simp [classify])
              · have hcr2 : Creatable cfg p r fs2 :=
                  (Creatable_congr cfg p r h.1).1 hcr
                rcases h.2.2 with h3 | h3 | h3
                · exact h3 hcr2
                · rw [e2.1, e1.1] at h3; exact hu h3
                · rw [f2] at h3; exact absurd h3 (by simp [classify])
        · simp only [hh, Bool.false_eq_true, if_false]
          have h := createPath_post cfg p r cfg.retries fs1
          refine ⟨SameEnv_trans e1 h.1, ?_⟩
          have hinv : classify (fs1.files.lookup (cfg.location p r)) = .Invalid := by
            rw [f1]; exact hc
          obtain ⟨e, hres⟩ := createPath_fails cfg p r cfg.retries fs1 (Or.inr hinv)
          rw [hres] at h ⊢
          simp only at h ⊢
          intro hs
          rcases hs with ⟨_, _, _, hs⟩
          rw [h.2.1, f1, hc] at hs
          rcases hs with ⟨id, hs⟩ | ⟨_, hs | hs⟩
          · exact absurd hs (by simp)
          · exact absurd hs (by simp)
          · exact hh hs

theorem GetOrCreate_fails (cfg : StoreConfig) (p r : String) (fs : FS)
    (h : ¬ Succeeds cfg p r fs) : ∃ e, (GetOrCreate cfg p r fs).1 = .error e := by
  have hpost := GetOrCreate_post cfg p r fs
  cases hres : (GetOrCreate cfg p r fs).1 with
  | error e => exact ⟨e, rfl⟩
  | ok id =>
    exfalso
    rw [hres] at hpost
    obtain ⟨_, hp, hr, hu, _, _⟩ := hpost
    revert hres
    unfold GetOrCreate
    have hpr : ¬ (p = "" ∨ r = "") := fun h => h.elim hp hr
    simp only [hpr, if_false, readLocation, hu]
    obtain ⟨fs1, hfs1⟩ : ∃ fs1 : FS,
        fs1 = { fs with log := fs.log ++ [FsOp.read (cfg.location p r)] } := ⟨_, rfl⟩
    have e1 : SameEnv fs fs1 := by rw [hfs1]; exact ⟨rfl, rfl, rfl⟩
    have f1 : fs1.files = fs.files := by rw [hfs1]
    rw [← hfs1]
    cases hc : classify (fs.files.lookup (cfg.location p r)) with
    | Found id2 => exact absurd ⟨hp, hr, hu, Or.inl ⟨id2, hc⟩⟩ h
    | Absent =>
      simp only
      have hn : ¬ Creatable cfg p r fs1 := fun hcr =>
        h ⟨hp, hr, hu, Or.inr ⟨(Creatable_congr cfg p r e1).1 hcr, Or.inl hc⟩⟩
      obtain ⟨e, he⟩ := createPath_fails cfg p r cfg.retries fs1 (Or.inl hn)
      rw [he]; simp
    | Invalid =>
      simp only
      by_cases hh : cfg.selfHeal = true
      · have hn : ¬ Creatable cfg p r fs := fun hcr => h ⟨hp, hr, hu, Or.inr ⟨hcr, Or.inr hh⟩⟩
        simp only [hh, if_true, discard]
        by_cases hw : cfg.location p r ∈ fs1.unwritable
        · simp [hw]
        · simp only [hw, if_false]
          obtain ⟨fs2, hfs2⟩ : ∃ fs2 : FS, fs2 =
              { fs1 with
                log := fs1.log ++ [FsOp.remove (cfg.location p r)]
                files := fs1.files.filter (fun e => e.1 != cfg.location p r) } :=
            ⟨_, rfl⟩
          have e2 : SameEnv fs1 fs2 := by rw [hfs2]; exact ⟨rfl, rfl, rfl⟩
          rw [← hfs2]
          have hn2 : ¬ Creatable cfg p r fs2 := fun hcr =>
            hn ((Creatable_congr cfg p r (SameEnv_trans e1 e2)).1 hcr)
          obtain ⟨e, he⟩ := createPath_fails cfg p r cfg.retries fs2 (Or.inl hn2)
          rw [he]; simp
      · simp only [hh, Bool.false_eq_true, if_false]
        have hinv : classify (fs1.files.lookup (cfg.location p r)) = .Invalid := by
          rw [f1]; exact hc
        obtain ⟨e, he⟩ := createPath_fails cfg p r cfg.retries fs1 (Or.inr hinv)
        rw [he]; simp
/-! ## Properties of `uniqueID` -/

theorem uniqueID_pair {σ ε : Type} (env : Env σ ε) (p r : String) (w : World σ) :
    uniqueID env [p, r] w =
      match (env.GetSystemPeerName p r w.sys).1.2 with
      | some err =>
        (.returned (some err),
          { sys := (env.GetSystemPeerName p r w.sys).2, stdout := w.stdout,
            calls := w.calls ++ [Call.GetSystemPeerName p r] })
      | none =>
        (.returned none,
          { sys := (env.GetSystemPeerName p r w.sys).2,
            stdout := w.stdout ++ Printf (env.GetSystemPeerName p r w.sys).1.1,
            calls := w.calls ++ [Call.GetSystemPeerName p r] }) := by
  simp only [uniqueID, uniqueIDBody, List.length_cons, List.length_nil]
  simp only [ne_eq, not_true_eq_false, if_false, List.getElem?_cons_zero,
    List.getElem?_cons_succ]

theorem length_two {α : Type} (args : List α) (h : args.length = 2) :
    ∃ p r, args = [p, r] := by
  match args, h with
  | [p, r], _ => exact ⟨p, r, rfl⟩

/-- Whatever the callee, an identifier without a `%` that comes back with a
nil error is appended to standard output as it is, and nil is returned. -/
theorem uniqueID_prints_verbatim {σ ε : Type} (env : Env σ ε) (w : World σ)
    (p r uid : String) (s : σ)
    (hcall : env.GetSystemPeerName p r w.sys = ((uid, none), s))
    (hfmt : '%' ∉ uid.data) :
    uniqueID env [p, r] w =
      (.returned none,
        { sys := s, stdout := w.stdout ++ uid,
          calls := w.calls ++ [Call.GetSystemPeerName p r] }) := by
  rw [uniqueID_pair, hcall]
  simp only [Printf_of_no_percent uid hfmt]

/-- C2. When `GetSystemPeerName(p, r)` returns a non-nil error `e`,
`uniqueID([p, r])` returns that same `e` and writes nothing to standard
output. -/
theorem uniqueID_propagates_error {σ ε : Type} (env : Env σ ε) (w : World σ)
    (p r uid : String) (e : ε) (s : σ)
    (hcall : env.GetSystemPeerName p r w.sys = ((uid, some e), s)) :
    uniqueID env [p, r] w =
      (.returned (some e),
        { sys := s, stdout := w.stdout, calls := w.calls ++ [Call.GetSystemPeerName p r] }) := by
  rw [uniqueID_pair, hcall]

theorem uniqueID_propagates_error_witness :
    (fixedEnv .exits "" (some "permission denied")).GetSystemPeerName "weave" "/"
        (freshWorld ()).sys = (("", some "permission denied"), ()) ∧
      uniqueID (fixedEnv .exits "" (some "permission denied")) ["weave", "/"] (freshWorld ()) =
        (.returned (some "permission denied"),
          { sys := (), stdout := "", calls := [] ++ [Call.GetSystemPeerName "weave" "/"] }) :=
  ⟨rfl,
    uniqueID_propagates_error (fixedEnv .exits "" (some "permission denied")) (freshWorld ())
      "weave" "/" "" "permission denied" () rfl⟩

/-- C3. With exactly two arguments `uniqueID` makes one call to the outside,
`GetSystemPeerName(args[0], args[1])` on the state it was entered with, and
no call of `cmdUsage`. -/
theorem uniqueID_consults_store_once {σ ε : Type} (env : Env σ ε) (w : World σ)
    (args : List String) (h : args.length = 2) :
    (uniqueID env args w).2.calls = w.calls ++ [Call.GetSystemPeerName args[0] args[1]] ∧
      (uniqueID env args w).2.sys = (env.GetSystemPeerName args[0] args[1] w.sys).2 := by
  obtain ⟨p, r, rfl⟩ := length_two args h
  rw [uniqueID_pair]
  cases (env.GetSystemPeerName p r w.sys).1.2 <;> exact ⟨rfl, rfl⟩

theorem uniqueID_consults_store_once_witness :
    (uniqueID (fixedEnv .returns "02:aa:bb:cc:dd:ee" none) ["weave", "/"]
        (freshWorld ())).2.calls = [] ++ [Call.GetSystemPeerName "weave" "/"] ∧
      (uniqueID (fixedEnv .returns "02:aa:bb:cc:dd:ee" none) ["weave", "/"]
        (freshWorld ())).2.sys = () :=
  uniqueID_consults_store_once (fixedEnv .returns "02:aa:bb:cc:dd:ee" none) (freshWorld ())
    ["weave", "/"] rfl

theorem uniqueIDBody_calls {σ ε : Type} (env : Env σ ε) (args : List String) (w : World σ) :
    ∃ rest, (uniqueIDBody env args w).2.calls = w.calls ++ rest := by
  unfold uniqueIDBody
  cases args[0]? with
  | none => exact ⟨[], by simp⟩
  | some dbPrefix =>
    cases args[1]? with
    | none => exact ⟨[], by simp⟩
    | some hostRoot =>
      simp only
      cases (env.GetSystemPeerName dbPrefix hostRoot w.sys).1.2 with
      | none => exact ⟨[Call.GetSystemPeerName dbPrefix hostRoot], rfl⟩
      | some e => exact ⟨[Call.GetSystemPeerName dbPrefix hostRoot], rfl⟩

/-- C4, as amended. With an argument count other than two `uniqueID` calls
`cmdUsage("unique-id", "<db-prefix> <host-root>")` before anything else.
Provided `cmdUsage` does not return, or the list has fewer than two
arguments, the core does not process the case: that call is the only one
made, so `GetSystemPeerName` is not called, nothing is written to standard
output, the state is untouched, and no value is handed back. -/
theorem uniqueID_wrong_count_usage {σ ε : Type} (env : Env σ ε) (w : World σ)
    (args : List String) (hlen : args.length ≠ 2) :
    (∃ rest, (uniqueID env args w).2.calls =
        w.calls ++ Call.cmdUsage "unique-id" "<db-prefix> <host-root>" :: rest) ∧
      (env.cmdUsage "unique-id" "<db-prefix> <host-root>" = .exits ∨ args.length < 2 →
        (uniqueID env args w).2.calls =
          w.calls ++ [Call.cmdUsage "unique-id" "<db-prefix> <host-root>"] ∧
        (uniqueID env args w).2.stdout = w.stdout ∧
        (uniqueID env args w).2.sys = w.sys ∧
        ((uniqueID env args w).1 = .exited ∨ (uniqueID env args w).1 = .panicked)) := by
  constructor
  · cases hc : env.cmdUsage "unique-id" "<db-prefix> <host-root>" with
    | exits => exact ⟨[], by simp [uniqueID, hlen, hc]⟩
    | returns =>
      obtain ⟨rest, hrest⟩ := uniqueIDBody_calls env args
        { w with calls := w.calls ++ [Call.cmdUsage "unique-id" "<db-prefix> <host-root>"] }
      refine ⟨rest, ?_⟩
      simp only [uniqueID, hlen, ne_eq, not_false_eq_true, if_true, hc]
      rw [hrest]
      simp
  · intro hstop
    cases hc : env.cmdUsage "unique-id" "<db-prefix> <host-root>" with
    | exits => simp [uniqueID, hlen, hc]
    | returns =>
      have hshort : args.length < 2 := by
        rcases hstop with h | h
        · rw [hc] at h; exact absurd h (by decide)
        · exact h
      match args, hshort with
      | [], _ => simp [uniqueID, uniqueIDBody, hc]
      | [a], _ => simp [uniqueID, uniqueIDBody, hc]

theorem uniqueID_wrong_count_usage_witness :
    ["weave", "/", "extra"].length ≠ 2 ∧
      ((fixedEnv .exits "02:aa:bb:cc:dd:ee" none).cmdUsage "unique-id"
        "<db-prefix> <host-root>" = .exits ∨ ["weave", "/", "extra"].length < 2) ∧
      (uniqueID (fixedEnv .exits "02:aa:bb:cc:dd:ee" none) ["weave", "/", "extra"]
          (freshWorld ())).2.calls =
        (freshWorld ()).calls ++ [Call.cmdUsage "unique-id" "<db-prefix> <host-root>"] ∧
      (uniqueID (fixedEnv .exits "02:aa:bb:cc:dd:ee" none) ["weave", "/", "extra"]
          (freshWorld ())).2.stdout = (freshWorld ()).stdout :=
  ⟨by decide, Or.inl rfl,
    ((uniqueID_wrong_count_usage (fixedEnv .exits "02:aa:bb:cc:dd:ee" none) (freshWorld ())
      ["weave", "/", "extra"] (by decide)).2 (Or.inl rfl)).1,
    ((uniqueID_wrong_count_usage (fixedEnv .exits "02:aa:bb:cc:dd:ee" none) (freshWorld ())
      ["weave", "/", "extra"] (by decide)).2 (Or.inl rfl)).2.1⟩

/-- C4, counterexample. Three arguments and a `cmdUsage` that returns: after
the usage call the run goes on at line 13, `GetSystemPeerName("weave", "/")`
is called and the identifier is written to standard output. -/
theorem uniqueID_three_args_processed :
    ["weave", "/", "extra"].length ≠ 2 ∧
      (uniqueID (fixedEnv .returns "02:aa:bb:cc:dd:ee" none) ["weave", "/", "extra"]
          (freshWorld ())).1 = .returned none ∧
      (uniqueID (fixedEnv .returns "02:aa:bb:cc:dd:ee" none) ["weave", "/", "extra"]
          (freshWorld ())).2.calls =
        [Call.cmdUsage "unique-id" "<db-prefix> <host-root>",
          Call.GetSystemPeerName "weave" "/"] ∧
      (uniqueID (fixedEnv .returns "02:aa:bb:cc:dd:ee" none) ["weave", "/", "extra"]
          (freshWorld ())).2.stdout = "02:aa:bb:cc:dd:ee" := by
  refine ⟨by decide, ?_, ?_, ?_⟩ <;> decide

/-- C6, as amended. With exactly two arguments every outcome of `uniqueID`
is a value returned to the caller, nil or the error of the identity store;
the run neither ends the process nor panics. -/
theorem uniqueID_two_args_returns {σ ε : Type} (env : Env σ ε) (w : World σ)
    (args : List String) (h : args.length = 2) :
    (uniqueID env args w).1 =
      .returned (env.GetSystemPeerName args[0] args[1] w.sys).1.2 := by
  obtain ⟨p, r, rfl⟩ := length_two args h
  rw [uniqueID_pair]
  simp only [List.getElem_cons_zero, List.getElem_cons_succ]
  cases (env.GetSystemPeerName p r w.sys).1.2 <;> rfl

theorem uniqueID_two_args_returns_witness :
    (uniqueID (fixedEnv .exits "" (some "no entropy")) ["weave", "/"] (freshWorld ())).1 =
      .returned (some "no entropy") :=
  uniqueID_two_args_returns (fixedEnv .exits "" (some "no entropy")) (freshWorld ())
    ["weave", "/"] rfl

/-- C6, counterexample. Called without arguments, `uniqueID` hands nothing
back to its caller: the process ends inside `cmdUsage`, and with a `cmdUsage`
that returned the read of `args[0]` would panic. -/
theorem uniqueID_no_args_not_returned :
    (uniqueID (fixedEnv .exits "02:aa:bb:cc:dd:ee" none) [] (freshWorld ())).1 = .exited ∧
      (uniqueID (fixedEnv .returns "02:aa:bb:cc:dd:ee" none) [] (freshWorld ())).1 =
        .panicked ∧
      ¬ ∀ (env : Env Unit String) (args : List String),
        ∃ err, (uniqueID env args (freshWorld ())).1 = .returned err := by
  refine ⟨rfl, rfl, ?_⟩
  intro h
  obtain ⟨err, he⟩ := h (fixedEnv .exits "02:aa:bb:cc:dd:ee" none) []
  exact absurd he (by simp [uniqueID, fixedEnv])

/-- C10. Provided `cmdUsage` does not return, no run of `uniqueID` panics, and
a run that gets past the guard to the reads of `args[0]` and `args[1]` has
exactly two arguments, so both reads are in bounds. -/
theorem uniqueID_index_in_bounds {σ ε : Type} (env : Env σ ε) (w : World σ)
    (args : List String)
    (hexit : env.cmdUsage "unique-id" "<db-prefix> <host-root>" = .exits) :
    (uniqueID env args w).1 ≠ .panicked ∧
      ((uniqueID env args w).1 ≠ .exited →
        args.length = 2 ∧ args[0]?.isSome = true ∧ args[1]?.isSome = true) := by
  by_cases hlen : args.length = 2
  · obtain ⟨p, r, rfl⟩ := length_two args hlen
    rw [uniqueID_pair]
    cases (env.GetSystemPeerName p r w.sys).1.2 <;> simp
  · simp [uniqueID, hlen, hexit]

theorem uniqueID_index_in_bounds_witness :
    (fixedEnv .exits "02:aa:bb:cc:dd:ee" none).cmdUsage "unique-id"
        "<db-prefix> <host-root>" = .exits ∧
      (uniqueID (fixedEnv .exits "02:aa:bb:cc:dd:ee" none) ["weave"] (freshWorld ())).1 ≠
        .panicked :=
  ⟨rfl,
    (uniqueID_index_in_bounds (fixedEnv .exits "02:aa:bb:cc:dd:ee" none) (freshWorld ())
      ["weave"] rfl).1⟩

theorem uniqueID_store (cfg : StoreConfig) (usage : Control) (p r : String) (w : World FS) :
    uniqueID (storeEnv cfg usage) [p, r] w =
      match GetOrCreate cfg p r w.sys with
      | (.ok id, fs) =>
        (.returned none,
          { sys := fs, stdout := w.stdout ++ Printf id,
            calls := w.calls ++ [Call.GetSystemPeerName p r] })
      | (.error e, fs) =>
        (.returned (some e),
          { sys := fs, stdout := w.stdout, calls := w.calls ++ [Call.GetSystemPeerName p r] }) := by
  rw [uniqueID_pair]
  simp only [storeEnv, GetSystemPeerName]
  rcases GetOrCreate cfg p r w.sys with ⟨res, fs⟩
  cases res <;> rfl

/-- C1. When `GetSystemPeerName(p, r)` returns `(uid, nil)`, `uniqueID([p, r])`
appends exactly `uid` to standard output, with no newline or other text, and
returns nil. The identity store is the one of the specification: every
identifier it returns is in the canonical format, which holds no `%`, so
`fmt.Printf(uid)` copies it. -/
theorem uniqueID_prints_identifier (cfg : StoreConfig) (usage : Control) (w : World FS)
    (p r uid : String) (s : FS)
    (hcall : (storeEnv cfg usage).GetSystemPeerName p r w.sys = ((uid, none), s)) :
    uniqueID (storeEnv cfg usage) [p, r] w =
      (.returned none,
        { sys := s, stdout := w.stdout ++ uid,
          calls := w.calls ++ [Call.GetSystemPeerName p r] }) := by
  have hc : canonical uid = true := by
    have post := GetOrCreate_post cfg p r w.sys
    have h := hcall
    simp only [storeEnv, GetSystemPeerName] at h
    rcases hg : GetOrCreate cfg p r w.sys with ⟨res, fs1⟩
    rw [hg] at h post
    cases res with
    | error e => simp at h
    | ok id =>
      simp only [Prod.mk.injEq] at h
      rw [← h.1.1]
      exact post.2.2.2.2.2
  exact uniqueID_prints_verbatim (storeEnv cfg usage) w p r uid s hcall
    (hexPairs_no_percent 6 uid.data hc)

theorem uniqueID_prints_identifier_witness :
    (storeEnv sampleConfig .exits).GetSystemPeerName "weave" "/" (freshWorld emptyFS).sys =
        (("02:aa:bb:cc:dd:ee", none), (GetSystemPeerName sampleConfig "weave" "/" emptyFS).2) ∧
      (uniqueID (storeEnv sampleConfig .exits) ["weave", "/"] (freshWorld emptyFS)).1 =
        .returned none ∧
      (uniqueID (storeEnv sampleConfig .exits) ["weave", "/"] (freshWorld emptyFS)).2.stdout =
        "" ++ "02:aa:bb:cc:dd:ee" := by
  have h := uniqueID_prints_identifier sampleConfig .exits (freshWorld emptyFS) "weave" "/"
    "02:aa:bb:cc:dd:ee" (GetSystemPeerName sampleConfig "weave" "/" emptyFS).2 rfl
  exact ⟨rfl, by rw [h], by rw [h]; rfl⟩

/-- C5, as amended. With an empty prefix or an empty root `uniqueID` does no
check of its own: it calls `GetSystemPeerName` once with the two values.
The identity store of the specification rejects them before any filesystem
access, and `uniqueID` returns its `InvalidArgument`, the filesystem and
its access log untouched and nothing written to standard output. -/
theorem uniqueID_empty_argument (cfg : StoreConfig) (usage : Control) (w : World FS)
    (p r : String) (h : p = "" ∨ r = "") :
    uniqueID (storeEnv cfg usage) [p, r] w =
      (.returned (some StoreError.InvalidArgument),
        { sys := w.sys, stdout := w.stdout,
          calls := w.calls ++ [Call.GetSystemPeerName p r] }) := by
  rw [uniqueID_store]
  simp only [GetOrCreate, h, if_true]

theorem uniqueID_empty_argument_witness :
    ("" = "" ∨ "/" = "") ∧
      uniqueID (storeEnv sampleConfig .exits) ["", "/"] (freshWorld emptyFS) =
        (.returned (some StoreError.InvalidArgument),
          { sys := emptyFS, stdout := "", calls := [] ++ [Call.GetSystemPeerName "" "/"] }) :=
  ⟨Or.inl rfl,
    uniqueID_empty_argument sampleConfig .exits (freshWorld emptyFS) "" "/" (Or.inl rfl)⟩

/-- C5, counterexample. With the empty prefix the identity store is
consulted all the same: `uniqueID` returns the `InvalidArgument` of the
store, and the one call it has made is `GetSystemPeerName("", "/")`. -/
theorem uniqueID_empty_prefix_consults_store :
    (uniqueID (storeEnv sampleConfig .exits) ["", "/"] (freshWorld emptyFS)).1 =
        .returned (some StoreError.InvalidArgument) ∧
      (uniqueID (storeEnv sampleConfig .exits) ["", "/"] (freshWorld emptyFS)).2.calls =
        [Call.GetSystemPeerName "" "/"] ∧
      ¬ (Call.GetSystemPeerName "" "/" ∉
        (uniqueID (storeEnv sampleConfig .exits) ["", "/"] (freshWorld emptyFS)).2.calls) := by
  have h : uniqueID (storeEnv sampleConfig .exits) ["", "/"] (freshWorld emptyFS) =
      (.returned (some StoreError.InvalidArgument),
        { sys := emptyFS, stdout := "", calls := [Call.GetSystemPeerName "" "/"] }) := by
    rw [uniqueID_store]
    simp [GetOrCreate, freshWorld]
  rw [h]
  exact ⟨rfl, rfl, by simp⟩

/-- C7. Two calls of `uniqueID([prefix, root])` in a row, over the identity
store of the specification: either both return nil, both print the same
identifier, and that identifier is the content the first call left at the
storage location, which the second call leaves as it is; or both return an
error and print nothing. -/
theorem uniqueID_stable (cfg : StoreConfig) (usage : Control) (w : World FS)
    (p r : String) (hp : p ≠ "") (hr : r ≠ "") :
    (∃ uid,
      (uniqueID (storeEnv cfg usage) [p, r] w).1 = .returned none ∧
      (uniqueID (storeEnv cfg usage) [p, r]
        (uniqueID (storeEnv cfg usage) [p, r] w).2).1 = .returned none ∧
      (uniqueID (storeEnv cfg usage) [p, r] w).2.stdout = w.stdout ++ uid ∧
      (uniqueID (storeEnv cfg usage) [p, r]
        (uniqueID (storeEnv cfg usage) [p, r] w).2).2.stdout = w.stdout ++ uid ++ uid ∧
      (uniqueID (storeEnv cfg usage) [p, r] w).2.sys.files.lookup (cfg.location p r) =
        some uid ∧
      (uniqueID (storeEnv cfg usage) [p, r]
        (uniqueID (storeEnv cfg usage) [p, r] w).2).2.sys.files =
        (uniqueID (storeEnv cfg usage) [p, r] w).2.sys.files) ∨
    (∃ e1 e2,
      (uniqueID (storeEnv cfg usage) [p, r] w).1 = .returned (some e1) ∧
      (uniqueID (storeEnv cfg usage) [p, r]
        (uniqueID (storeEnv cfg usage) [p, r] w).2).1 = .returned (some e2) ∧
      (uniqueID (storeEnv cfg usage) [p, r] w).2.stdout = w.stdout ∧
      (uniqueID (storeEnv cfg usage) [p, r]
        (uniqueID (storeEnv cfg usage) [p, r] w).2).2.stdout = w.stdout) := by
  have post := GetOrCreate_post cfg p r w.sys
  rw [uniqueID_store cfg usage p r w]
  rcases h1 : GetOrCreate cfg p r w.sys with ⟨res, fs1⟩
  rw [h1] at post
  cases res with
  | ok id =>
    simp only at post ⊢
    obtain ⟨henv, _, _, hu, hf, hc⟩ := post
    have hu1 : cfg.location p r ∉ fs1.unreadable := by rw [henv.1]; exact hu
    rw [uniqueID_store]
    simp only [GetOrCreate_found cfg p r fs1 id hp hr hu1 hf hc, Printf_of_canonical id hc]
    refine Or.inl ⟨id, ?_, ?_, ?_, ?_, ?_, ?_⟩ <;> trivial
  | error e =>
    simp only at post ⊢
    obtain ⟨e2, h2⟩ := GetOrCreate_fails cfg p r fs1 post.2
    rw [uniqueID_store]
    rcases h3 : GetOrCreate cfg p r fs1 with ⟨res2, fs2⟩
    rw [h3] at h2
    simp only at h2
    subst h2
    refine Or.inr ⟨e, e2, ?_, ?_, ?_, ?_⟩ <;> trivial

theorem uniqueID_stable_witness :
    ("weave" ≠ "" ∧ "/" ≠ "") ∧
      (uniqueID (storeEnv sampleConfig .exits) ["weave", "/"] (freshWorld emptyFS)).1 =
        .returned none ∧
      (uniqueID (storeEnv sampleConfig .exits) ["weave", "/"]
        (uniqueID (storeEnv sampleConfig .exits) ["weave", "/"]
          (freshWorld emptyFS)).2).2.stdout = "02:aa:bb:cc:dd:ee02:aa:bb:cc:dd:ee" := by
  have hev : (uniqueID (storeEnv sampleConfig .exits) ["weave", "/"]
      (freshWorld emptyFS)).1 = .returned none := by decide
  have hfile : (uniqueID (storeEnv sampleConfig .exits) ["weave", "/"]
      (freshWorld emptyFS)).2.sys.files.lookup (sampleConfig.location "weave" "/") =
      some "02:aa:bb:cc:dd:ee" := by decide
  refine ⟨⟨by decide, by decide⟩, hev, ?_⟩
  rcases uniqueID_stable sampleConfig .exits (freshWorld emptyFS) "weave" "/"
      (by decide) (by decide) with ⟨uid, _, _, _, h4, h5, _⟩ | ⟨e1, _, h1, _⟩
  · rw [hfile] at h5
    injection h5 with h5
    subst h5
    rw [h4]
    rfl
  · rw [hev] at h1
    exact absurd h1 (by simp)

end Weave
